import Mathlib

/-!
Verification of the credential-custody and session-lifecycle core of the
zkUSD CLI: the keystore manager (src/utils/keystore.ts) and the session
manager (src/utils/session.ts), together with the account status command
(src/commands/account.ts).

The cryptographic primitives from Node's crypto module are modelled
symbolically: scryptSync is an injective key-derivation function (a
password/salt pair), and AES-256-CBC encryption is a constructor pairing
the derived key, the IV and the plaintext, whose decryption succeeds
exactly when the supplied derived key and IV match the ones used at
encryption time.  The o1js key operations (PrivateKey.fromBase58,
toPublicKey, toBase58) are abstracted into a KeyCodec over arbitrary
private/public key types.  Timestamps are integer milliseconds, as in the
JavaScript Date arithmetic of the source.
-/

namespace ZkusdCli

/-- Symbolic result of scryptSync(password, salt, 32): scrypt is modelled
as an injective key-derivation function, so the derived key is the
password/salt pair itself. -/
structure DerivedKey where
  password : String
  salt : String
deriving DecidableEq, Repr

/-- Symbolic AES-256-CBC ciphertext: records the derived key, the IV and
the plaintext given to the cipher.  Only decryption with the matching key
and IV recovers the plaintext. -/
structure Cipher where
  key : DerivedKey
  iv : String
  plain : String
deriving DecidableEq, Repr

/-- Model of crypto.scryptSync(password, salt, 32). -/
def scryptSync (password salt : String) : DerivedKey :=
  ⟨password, salt⟩

/-- Model of createCipheriv("aes-256-cbc", key, iv) + update + final. -/
def aesEncrypt (key : DerivedKey) (iv plain : String) : Cipher :=
  ⟨key, iv, plain⟩

/-- Model of createDecipheriv("aes-256-cbc", key, iv) + update + final:
fails (bad padding / garbage) unless the derived key and IV are exactly
the ones used to produce the ciphertext. -/
def aesDecrypt (key : DerivedKey) (iv : String) (c : Cipher) : Option String :=
  if c.key = key ∧ c.iv = iv then some c.plain else none

/-- Abstraction of the o1js key operations used by the source:
PrivateKey.fromBase58 (which may fail), PrivateKey.toPublicKey and
PublicKey.toBase58. -/
structure KeyCodec (Priv Pub : Type) where
  fromBase58 : String → Option Priv
  toPublicKey : Priv → Pub
  pubToBase58 : Pub → String

/-- The Keystore interface of keystore.ts: the JSON record persisted as
keystores/name.json. -/
structure KeystoreRecord where
  name : String
  encryptedKey : Cipher
  salt : String
  iv : String
  publicKey : String
  version : Nat
deriving DecidableEq, Repr

/-- A keystore file on disk: either a readable record or an unreadable /
malformed file (readJSONSync throws on it). -/
inductive KeystoreFile where
  | valid (r : KeystoreRecord)
  | corrupt
deriving DecidableEq, Repr

/-- The SessionMetadata interface of session.ts: exactly the three fields
accountName, unlockTime and publicKey are persisted, nothing else. -/
structure SessionMetadata where
  accountName : String
  unlockTime : Int
  publicKey : String
deriving DecidableEq, Repr

/-- The singleton session file .session/current-session.json: absent,
present but unreadable, or holding a metadata record. -/
inductive SessionFile where
  | absent
  | corrupt
  | meta (m : SessionMetadata)
deriving DecidableEq, Repr

/-- Association-list lookup by name (models a file-per-name directory and
the keytar vault). -/
def alistGet {β : Type} : List (String × β) → String → Option β
  | [], _ => none
  | (k, v) :: rest, n => if k = n then some v else alistGet rest n

/-- Association-list write: overwrite the entry for a name, or append. -/
def alistSet {β : Type} : List (String × β) → String → β → List (String × β)
  | [], n, v => [(n, v)]
  | (k, w) :: rest, n, v =>
    if k = n then (k, v) :: rest else (k, w) :: alistSet rest n v

/-- Association-list delete by name. -/
def alistDelete {β : Type} : List (String × β) → String → List (String × β)
  | [], _ => []
  | (k, w) :: rest, n =>
    if k = n then alistDelete rest n else (k, w) :: alistDelete rest n

/-- The shared mutable state the two components act on: the keystore
directory, the session file, the OS secret vault (keyed by account name
under the fixed service identifier), and the per-process session timeout
in milliseconds. -/
structure State where
  keystores : List (String × KeystoreFile)
  sessionFile : SessionFile
  vault : List (String × String)
  sessionTimeout : Int
deriving DecidableEq, Repr

/-- A fresh process with empty disk: no keystores, no session file, no
vault entries, the default 30-minute timeout. -/
def initState : State :=
  { keystores := [], sessionFile := .absent, vault := [],
    sessionTimeout := 30 * 60 * 1000 }

/-- Outcome of KeystoreManager.importKey, one constructor per branch of
the source (the duplicate-name and invalid-key branches log and return
without writing). -/
inductive ImportResult where
  | ok
  | duplicateName
  | invalidKeyFormat
deriving DecidableEq, Repr

section Model

variable {Priv Pub : Type}

/-- Model of KeystoreManager.importKey (keystore.ts lines 87-143).  The
fresh random salt and IV drawn by crypto.randomBytes are passed in as
explicit inputs. -/
def importKey (C : KeyCodec Priv Pub) (st : State)
    (name privateKeyBase58 password salt iv : String) :
    ImportResult × State :=
  if (alistGet st.keystores name).isSome then
    (.duplicateName, st)
  else
    match C.fromBase58 privateKeyBase58 with
    | none => (.invalidKeyFormat, st)
    | some privateKey =>
      let key := scryptSync password salt
      let encryptedKey := aesEncrypt key iv privateKeyBase58
      let keystore : KeystoreRecord :=
        { name := name, encryptedKey := encryptedKey, salt := salt, iv := iv,
          publicKey := C.pubToBase58 (C.toPublicKey privateKey), version := 1 }
      (.ok, { st with keystores := alistSet st.keystores name (.valid keystore) })

/-- Model of KeystoreManager.loadKeyFromStore (keystore.ts lines 183-223).
Every failure path of the source (missing file, unreadable JSON, failed
decryption, failed base58 decode) returns null; the model returns none in
exactly those cases. -/
def loadKeyFromStore (C : KeyCodec Priv Pub) (st : State)
    (name password : String) : Option (Priv × Pub) :=
  match alistGet st.keystores name with
  | none => none
  | some .corrupt => none
  | some (.valid keystore) =>
    let key := scryptSync password keystore.salt
    match aesDecrypt key keystore.iv keystore.encryptedKey with
    | none => none
    | some decrypted =>
      match C.fromBase58 decrypted with
      | none => none
      | some privateKey => some (privateKey, C.toPublicKey privateKey)

/-- Model of KeystoreManager.removeKeystore (keystore.ts lines 230-247). -/
def removeKeystore (st : State) (name : String) : Bool × State :=
  if (alistGet st.keystores name).isSome then
    (true, { st with keystores := alistDelete st.keystores name })
  else
    (false, st)

/-- Model of SessionManager.getSessionMetadata: none when the file is
absent or unreadable. -/
def getSessionMetadata (st : State) : Option SessionMetadata :=
  match st.sessionFile with
  | .meta m => some m
  | _ => none

/-- Model of SessionManager.saveSessionMetadata (writeJSONSync of the
three-field record). -/
def saveSessionMetadata (st : State) (m : SessionMetadata) : State :=
  { st with sessionFile := .meta m }

/-- Outcome of SessionManager.lockAccount: the no-session branch throws,
is caught by its own handler, and calls process.exit(1). -/
inductive LockResult where
  | ok
  | exited (code : Nat)
deriving DecidableEq, Repr

/-- Model of SessionManager.lockAccount (session.ts lines 277-295): with
metadata present it deletes the vault entry for the metadata account and
unlinks the session file; with no readable metadata it reports the error
and terminates the process with exit status 1. -/
def lockAccount (st : State) : LockResult × State :=
  match getSessionMetadata st with
  | some m =>
    (.ok, { st with vault := alistDelete st.vault m.accountName,
                    sessionFile := .absent })
  | none => (.exited 1, st)

/-- Model of SessionManager.unlockAccount (session.ts lines 148-181):
verify the password by loading the key, then persist the three-field
metadata and deposit the password in the vault. -/
def unlockAccount (C : KeyCodec Priv Pub) (st : State)
    (accountName password : String) (now : Int) : Bool × State :=
  match loadKeyFromStore C st accountName password with
  | none => (false, st)
  | some keys =>
    let metadata : SessionMetadata :=
      { accountName := accountName, unlockTime := now,
        publicKey := C.pubToBase58 keys.2 }
    let st1 := saveSessionMetadata st metadata
    (true, { st1 with vault := alistSet st1.vault accountName password })

/-- Model of SessionManager.isSessionValid (session.ts lines 187-200):
valid when metadata exists and the elapsed time does not exceed the
configured timeout; an expired check eagerly locks. -/
def isSessionValid (st : State) (now : Int) : Bool × State :=
  match getSessionMetadata st with
  | none => (false, st)
  | some m =>
    if now - m.unlockTime > st.sessionTimeout then
      (false, (lockAccount st).2)
    else
      (true, st)

/-- Model of SessionManager.isAccountUnlocked (session.ts lines 301-303). -/
def isAccountUnlocked (st : State) (now : Int) : Bool × State :=
  isSessionValid st now

/-- Model of SessionManager.setSessionTimeout (session.ts lines 104-112):
set the timeout, then re-save the current metadata if a session file is
readable. -/
def setSessionTimeout (st : State) (minutes : Int) : State :=
  let st1 := { st with sessionTimeout := minutes * 60 * 1000 }
  match getSessionMetadata st1 with
  | some session => saveSessionMetadata st1 session
  | none => st1

/-- Model of SessionManager.getActiveAccountName (session.ts lines
309-312). -/
def getActiveAccountName (st : State) : Option String :=
  (getSessionMetadata st).map (fun m => m.accountName)

/-- Outcome of SessionManager.getAccountForCommand: process exit, a null
return ("no account"), an error rethrown to the caller, or the unlocked
account handed to the command. -/
inductive CmdResult (Priv Pub : Type) where
  | exited (code : Nat)
  | noAccount
  | threw (msg : String)
  | account (privateKey : Priv) (publicKey : Pub) (name : String)
      (unlockTime : Int)
deriving DecidableEq

/-- Model of SessionManager.getAccountForCommand (session.ts lines
207-271).  The source tests the vault result with a JavaScript falsiness
check, so a null entry and an empty-string entry take the same auto-lock
branch. -/
def getAccountForCommand (C : KeyCodec Priv Pub) (st : State) (now : Int)
    (requireAccount : Bool) : CmdResult Priv Pub × State :=
  let v := isSessionValid st now
  if v.1 then
    match getSessionMetadata v.2 with
    | none => (.noAccount, v.2)
    | some metadata =>
      match alistGet v.2.vault metadata.accountName with
      | none =>
        let st2 := (lockAccount v.2).2
        if requireAccount then (.exited 1, st2) else (.noAccount, st2)
      | some password =>
        if password = "" then
          let st2 := (lockAccount v.2).2
          if requireAccount then (.exited 1, st2) else (.noAccount, st2)
        else
          match loadKeyFromStore C v.2 metadata.accountName password with
          | none =>
            let st2 := (lockAccount v.2).2
            if requireAccount then
              (.threw "Failed to load account. Please unlock again.", st2)
            else
              (.noAccount, st2)
          | some keys =>
            (.account keys.1 keys.2 metadata.accountName metadata.unlockTime,
              v.2)
  else
    if requireAccount then (.exited 1, v.2) else (.noAccount, v.2)

/-- Model of SessionManager.removeAccount (session.ts lines 319-333): if
the name is the active account, lock first; then delete any vault entry
for the name.  The keystore record file is not touched. -/
def removeAccount (st : State) (accountName : String) : State :=
  let st1 :=
    if getActiveAccountName st = some accountName then (lockAccount st).2
    else st
  { st1 with vault := alistDelete st1.vault accountName }

/-- Outcome of the account status command handler. -/
inductive StatusResult where
  | exited (code : Nat)
  | noActiveAccount
  | active (name publicKeyB58 : String)
  | errorCaught (msg : String)
deriving DecidableEq, Repr

/-- Model of AccountCommand.registerStatusCommand (account.ts lines
224-255): the handler calls getAccountForCommand() with no argument, so
the source's default requireAccount = true applies; a process exit inside
it is not catchable by the handler, while a rethrown error is caught and
logged. -/
def statusCommand (C : KeyCodec Priv Pub) (st : State) (now : Int) :
    StatusResult × State :=
  match getAccountForCommand C st now true with
  | (.exited code, st1) => (.exited code, st1)
  | (.noAccount, st1) => (.noActiveAccount, st1)
  | (.threw msg, st1) => (.errorCaught msg, st1)
  | (.account _ pub name _, st1) => (.active name (C.pubToBase58 pub), st1)

/-- One operation of the Keystore Store / Session Manager command
surface. -/
inductive Op where
  | opImport (name key password salt iv : String)
  | opRemoveKeystore (name : String)
  | opUnlock (name password : String) (now : Int)
  | opLock
  | opSetTimeout (minutes : Int)
  | opGetAccount (requireAccount : Bool) (now : Int)
  | opIsUnlocked (now : Int)
  | opRemoveAccount (name : String)
  | opStatus (now : Int)
deriving DecidableEq

/-- State transition of one operation (outputs discarded; the state at
process exit is the state left on disk). -/
def step (C : KeyCodec Priv Pub) (st : State) : Op → State
  | .opImport n k p s i => (importKey C st n k p s i).2
  | .opRemoveKeystore n => (removeKeystore st n).2
  | .opUnlock n p now => (unlockAccount C st n p now).2
  | .opLock => (lockAccount st).2
  | .opSetTimeout m => setSessionTimeout st m
  | .opGetAccount r now => (getAccountForCommand C st now r).2
  | .opIsUnlocked now => (isSessionValid st now).2
  | .opRemoveAccount n => removeAccount st n
  | .opStatus now => (statusCommand C st now).2

/-- Run a sequence of operations. -/
def runOps (C : KeyCodec Priv Pub) (st : State) : List Op → State
  | [] => st
  | op :: ops => runOps C (step C st op) ops

/-- A keystore file that stores the private key only under encryption: a
readable record whose encryptedKey field is a ciphertext produced by the
modelled cipher and whose publicKey field is a derived public key. -/
def goodFile (C : KeyCodec Priv Pub) (f : KeystoreFile) : Prop :=
  ∃ r, f = .valid r ∧
    (∃ p s i b, r.encryptedKey = aesEncrypt (scryptSync p s) i b) ∧
    ∃ pk : Priv, r.publicKey = C.pubToBase58 (C.toPublicKey pk)

/-- A session file with no secret material: absent, or a readable
three-field metadata record whose publicKey field is a derived public
key (the other two fields are an account name and a timestamp). -/
def goodSession (C : KeyCodec Priv Pub) (sf : SessionFile) : Prop :=
  sf = .absent ∨
    ∃ m, sf = .meta m ∧ ∃ pk : Priv,
      m.publicKey = C.pubToBase58 (C.toPublicKey pk)

/-- Disk invariant: every keystore file keeps the private key only as
ciphertext, and the session file holds only the non-secret three-field
metadata. -/
def diskNoPlaintext (C : KeyCodec Priv Pub) (st : State) : Prop :=
  (∀ n f, alistGet st.keystores n = some f → goodFile C f) ∧
    goodSession C st.sessionFile

end Model

/-- Concrete key codec over Nat used to evaluate the model on concrete
inputs: one decodable private-key string. -/
def natCodec : KeyCodec Nat Nat :=
  { fromBase58 := fun s => if s = "EKDemoKey" then some 7 else none,
    toPublicKey := fun k => k + 1,
    pubToBase58 := fun p => "B62-" ++ toString p }

/-- Concrete store holding one unreadable keystore file. -/
def c3Store : State :=
  { keystores := [("bad", KeystoreFile.corrupt)], sessionFile := .absent,
    vault := [], sessionTimeout := 30 * 60 * 1000 }

/-- Concrete store obtained by importing the demo key under the name
alice with password pw. -/
def c9Store : State :=
  (importKey natCodec initState "alice" "EKDemoKey" "pw" "s1" "i1").2

/-- Concrete state whose session is exactly at the timeout boundary when
checked at time 1000. -/
def c4State : State :=
  { keystores := [], sessionFile := .meta ⟨"alice", 0, "B62-8"⟩,
    vault := [("alice", "pw")], sessionTimeout := 1000 }

/-- Concrete state with an unlocked session for alice. -/
def c5State : State :=
  { keystores := [], sessionFile := .meta ⟨"alice", 0, "B62-8"⟩,
    vault := [("alice", "pw")], sessionTimeout := 30 * 60 * 1000 }

/-- Concrete state whose session is already expired at time 2400000
(40 minutes) under the in-effect 30-minute timeout. -/
def c6State : State :=
  { keystores := [], sessionFile := .meta ⟨"alice", 0, "B62-8"⟩,
    vault := [("alice", "pw")], sessionTimeout := 30 * 60 * 1000 }

/-- Concrete state with an unlocked session for alice, used to evaluate
removeAccount. -/
def c8State : State :=
  { keystores := [("alice", KeystoreFile.valid
      { name := "alice",
        encryptedKey := aesEncrypt (scryptSync "pw" "s1") "i1" "EKDemoKey",
        salt := "s1", iv := "i1", publicKey := "B62-8", version := 1 })],
    sessionFile := .meta ⟨"alice", 0, "B62-8"⟩,
    vault := [("alice", "pw")], sessionTimeout := 30 * 60 * 1000 }

/-- Concrete state reached by importing alice with the empty password and
unlocking with it: the vault caches the empty string. -/
def c10State : State :=
  (unlockAccount natCodec
    (importKey natCodec initState "alice" "EKDemoKey" "" "s1" "i1").2
    "alice" "" 5).2

section Lemmas

variable {Priv Pub : Type}

theorem alistGet_set {β : Type} (l : List (String × β)) (n x : String) (v : β) :
    alistGet (alistSet l n v) x = if n = x then some v else alistGet l x := by
  induction l with
  | nil => simp [alistSet, alistGet]
  | cons hd tl ih =>
    obtain ⟨k, w⟩ := hd
    simp only [alistSet, alistGet]
    split_ifs <;> simp_all [alistGet]

theorem alistGet_delete {β : Type} (l : List (String × β)) (n x : String) :
    alistGet (alistDelete l n) x = if n = x then none else alistGet l x := by
  induction l with
  | nil => simp [alistDelete, alistGet]
  | cons hd tl ih =>
    obtain ⟨k, w⟩ := hd
    simp only [alistDelete, alistGet]
    split_ifs <;> simp_all [alistGet]

theorem getSessionMetadata_eq_some (st : State) (m : SessionMetadata) :
    getSessionMetadata st = some m ↔ st.sessionFile = .meta m := by
  unfold getSessionMetadata
  cases st.sessionFile <;> simp

theorem lockAccount_of_meta (st : State) (m : SessionMetadata)
    (hm : getSessionMetadata st = some m) :
    lockAccount st =
      (.ok, { st with vault := alistDelete st.vault m.accountName,
                      sessionFile := .absent }) := by
  simp [lockAccount, hm]

theorem lockAccount_of_none (st : State)
    (hm : getSessionMetadata st = none) :
    lockAccount st = (.exited 1, st) := by
  simp [lockAccount, hm]

theorem isSessionValid_true_iff (st : State) (now : Int) :
    (isSessionValid st now).1 = true ↔
      ∃ m, getSessionMetadata st = some m ∧
        now - m.unlockTime ≤ st.sessionTimeout := by
  cases hm : getSessionMetadata st with
  | none => simp [isSessionValid, hm]
  | some m =>
    simp only [isSessionValid, hm]
    split_ifs with h
    · simp
      omega
    · simp
      omega

theorem isSessionValid_true_state (st : State) (now : Int)
    (h : (isSessionValid st now).1 = true) :
    (isSessionValid st now).2 = st := by
  unfold isSessionValid at h ⊢
  cases hm : getSessionMetadata st with
  | none => simp [hm] at h
  | some m =>
    simp only [hm] at h ⊢
    split_ifs at h ⊢
    simp_all

theorem loadKeyFromStore_some (C : KeyCodec Priv Pub) (st : State)
    (name password : String) (kp : Priv × Pub)
    (h : loadKeyFromStore C st name password = some kp) :
    ∃ pk, kp = (pk, C.toPublicKey pk) := by
  unfold loadKeyFromStore at h
  cases hf : alistGet st.keystores name with
  | none => simp [hf] at h
  | some f =>
    cases f with
    | corrupt => simp [hf] at h
    | valid r =>
      simp only [hf] at h
      cases hd : aesDecrypt (scryptSync password r.salt) r.iv r.encryptedKey with
      | none => simp [hd] at h
      | some d =>
        simp only [hd] at h
        cases hb : C.fromBase58 d with
        | none => simp [hb] at h
        | some pk =>
          simp only [hb, Option.some.injEq] at h
          exact ⟨pk, h.symm⟩

theorem lock_preserves (C : KeyCodec Priv Pub) (st : State)
    (h : diskNoPlaintext C st) : diskNoPlaintext C (lockAccount st).2 := by
  unfold lockAccount
  cases hm : getSessionMetadata st with
  | none => simpa using h
  | some m =>
    simp only
    exact ⟨h.1, Or.inl rfl⟩

theorem unlock_preserves (C : KeyCodec Priv Pub) (st : State)
    (n p : String) (now : Int) (h : diskNoPlaintext C st) :
    diskNoPlaintext C (unlockAccount C st n p now).2 := by
  unfold unlockAccount
  cases hl : loadKeyFromStore C st n p with
  | none => simpa using h
  | some keys =>
    simp only [saveSessionMetadata]
    obtain ⟨pk, hpk⟩ := loadKeyFromStore_some C st n p keys hl
    refine ⟨h.1, Or.inr ⟨_, rfl, ⟨pk, ?_⟩⟩⟩
    rw [hpk]

theorem import_preserves (C : KeyCodec Priv Pub) (st : State)
    (n k p s i : String) (h : diskNoPlaintext C st) :
    diskNoPlaintext C (importKey C st n k p s i).2 := by
  unfold importKey
  by_cases hex : (alistGet st.keystores n).isSome
  · simpa [hex] using h
  · simp only [hex, if_false, Bool.false_eq_true]
    cases hk : C.fromBase58 k with
    | none => exact h
    | some pk =>
      simp only
      refine ⟨?_, h.2⟩
      intro n2 f hf
      rw [alistGet_set] at hf
      by_cases hn : n = n2
      · rw [if_pos hn] at hf
        refine ⟨_, (Option.some_inj.mp hf).symm, ⟨p, s, i, k, rfl⟩, ⟨pk, rfl⟩⟩
      · rw [if_neg hn] at hf
        exact h.1 n2 f hf

theorem removeKeystore_preserves (C : KeyCodec Priv Pub) (st : State)
    (n : String) (h : diskNoPlaintext C st) :
    diskNoPlaintext C (removeKeystore st n).2 := by
  unfold removeKeystore
  by_cases hex : (alistGet st.keystores n).isSome
  · simp only [hex, if_true]
    refine ⟨?_, h.2⟩
    intro n2 f hf
    rw [alistGet_delete] at hf
    by_cases hn : n = n2
    · rw [if_pos hn] at hf
      exact absurd hf (by simp)
    · rw [if_neg hn] at hf
      exact h.1 n2 f hf
  · simpa [hex] using h

theorem setTimeout_preserves (C : KeyCodec Priv Pub) (st : State)
    (minutes : Int) (h : diskNoPlaintext C st) :
    diskNoPlaintext C (setSessionTimeout st minutes) := by
  unfold setSessionTimeout getSessionMetadata saveSessionMetadata
  cases hfile : st.sessionFile with
  | absent =>
    simp only [hfile]
    exact ⟨h.1, hfile ▸ h.2⟩
  | corrupt =>
    simp only [hfile]
    exact ⟨h.1, hfile ▸ h.2⟩
  | meta m =>
    simp only [hfile]
    exact ⟨h.1, hfile ▸ h.2⟩

theorem isSessionValid_preserves (C : KeyCodec Priv Pub) (st : State)
    (now : Int) (h : diskNoPlaintext C st) :
    diskNoPlaintext C (isSessionValid st now).2 := by
  unfold isSessionValid
  cases hm : getSessionMetadata st with
  | none => simpa using h
  | some m =>
    simp only
    split_ifs with hexp
    · exact lock_preserves C st h
    · simpa using h

theorem getAccount_preserves (C : KeyCodec Priv Pub) (st : State)
    (now : Int) (req : Bool) (h : diskNoPlaintext C st) :
    diskNoPlaintext C (getAccountForCommand C st now req).2 := by
  have hv := isSessionValid_preserves C st now h
  unfold getAccountForCommand
  by_cases h1 : (isSessionValid st now).1
  · simp only [h1, if_true]
    cases hm : getSessionMetadata (isSessionValid st now).2 with
    | none => exact hv
    | some metadata =>
      simp only
      cases hp : alistGet (isSessionValid st now).2.vault metadata.accountName with
      | none =>
        cases req <;> exact lock_preserves C _ hv
      | some password =>
        simp only
        by_cases hpw : password = ""
        · simp only [hpw, if_pos rfl]
          cases req <;> exact lock_preserves C _ hv
        · simp only [if_neg hpw]
          cases hl : loadKeyFromStore C (isSessionValid st now).2
              metadata.accountName password with
          | none => cases req <;> exact lock_preserves C _ hv
          | some keys => exact hv
  · simp only [h1, Bool.false_eq_true, if_false]
    cases req <;> exact hv

theorem status_preserves (C : KeyCodec Priv Pub) (st : State)
    (now : Int) (h : diskNoPlaintext C st) :
    diskNoPlaintext C (statusCommand C st now).2 := by
  have hg := getAccount_preserves C st now true h
  unfold statusCommand
  rcases hres : getAccountForCommand C st now true with ⟨r, s2⟩
  rw [hres] at hg
  cases r <;> simpa using hg

theorem removeAccount_preserves (C : KeyCodec Priv Pub) (st : State)
    (n : String) (h : diskNoPlaintext C st) :
    diskNoPlaintext C (removeAccount st n) := by
  unfold removeAccount
  by_cases hact : getActiveAccountName st = some n
  · simp only [hact, if_pos rfl]
    have hl := lock_preserves C st h
    exact ⟨hl.1, hl.2⟩
  · simp only [if_neg hact]
    exact ⟨h.1, h.2⟩

theorem step_preserves (C : KeyCodec Priv Pub) (st : State) (op : Op)
    (h : diskNoPlaintext C st) : diskNoPlaintext C (step C st op) := by
  cases op with
  | opImport n k p s i => exact import_preserves C st n k p s i h
  | opRemoveKeystore n => exact removeKeystore_preserves C st n h
  | opUnlock n p now => exact unlock_preserves C st n p now h
  | opLock => exact lock_preserves C st h
  | opSetTimeout m => exact setTimeout_preserves C st m h
  | opGetAccount r now => exact getAccount_preserves C st now r h
  | opIsUnlocked now => exact isSessionValid_preserves C st now h
  | opRemoveAccount n => exact removeAccount_preserves C st n h
  | opStatus now => exact status_preserves C st now h

theorem runOps_preserves (C : KeyCodec Priv Pub) (ops : List Op) :
    ∀ st : State, diskNoPlaintext C st →
      diskNoPlaintext C (runOps C st ops) := by
  induction ops with
  | nil => exact fun st h => h
  | cons op ops ih => exact fun st h => ih _ (step_preserves C st op h)

theorem initState_disk (C : KeyCodec Priv Pub) :
    diskNoPlaintext C initState := by
  constructor
  · intro n f hf
    simp [initState, alistGet] at hf
  · exact Or.inl rfl

end Lemmas

section Claims

variable {Priv Pub : Type}

/-- C1: for every valid base58-encoded private key k, name and password,
loading right after a successful import returns the key pair decoded
from k: the private key decoded from k and the public key derived from
it. -/
theorem c1_import_then_load_round_trip (C : KeyCodec Priv Pub) (st : State)
    (name k password salt iv : String) (pk : Priv)
    (hfresh : alistGet st.keystores name = none)
    (hkey : C.fromBase58 k = some pk) :
    (importKey C st name k password salt iv).1 = .ok ∧
    loadKeyFromStore C (importKey C st name k password salt iv).2 name password
      = some (pk, C.toPublicKey pk) := by
  unfold importKey
  simp only [hfresh, Option.isSome_none, Bool.false_eq_true, if_false, hkey]
  refine ⟨trivial, ?_⟩
  unfold loadKeyFromStore
  simp [alistGet_set, aesDecrypt, aesEncrypt, scryptSync, hkey]

/-- Witness for C1 at a concrete import. -/
theorem c1_witness :
    (importKey natCodec initState "alice" "EKDemoKey" "pw" "s1" "i1").1
        = ImportResult.ok ∧
    loadKeyFromStore natCodec
        (importKey natCodec initState "alice" "EKDemoKey" "pw" "s1" "i1").2
        "alice" "pw" = some (7, 8) :=
  c1_import_then_load_round_trip natCodec initState "alice" "EKDemoKey" "pw"
    "s1" "i1" 7 rfl (by decide)

/-- C3: whenever a keystore record exists for the name, every decryption
or decoding failure of loadKeyFromStore — unreadable record, failed
decryption (in particular any wrong password), or a decrypted payload
that does not decode as a private key — produces one and the same
result, none, so the caller cannot tell which check failed and no
failure path returns the private key. -/
theorem c3_load_failure_single_kind (C : KeyCodec Priv Pub) (st : State)
    (name password : String) (f : KeystoreFile)
    (hex : alistGet st.keystores name = some f) :
    (f = .corrupt → loadKeyFromStore C st name password = none) ∧
    (∀ r, f = .valid r →
      aesDecrypt (scryptSync password r.salt) r.iv r.encryptedKey = none →
      loadKeyFromStore C st name password = none) ∧
    (∀ r d, f = .valid r →
      aesDecrypt (scryptSync password r.salt) r.iv r.encryptedKey = some d →
      C.fromBase58 d = none →
      loadKeyFromStore C st name password = none) ∧
    (∀ r p0 s0 i0 b0, f = .valid r →
      r.encryptedKey = aesEncrypt (scryptSync p0 s0) i0 b0 →
      password ≠ p0 →
      loadKeyFromStore C st name password = none) := by
  refine ⟨?_, ?_, ?_, ?_⟩
  · rintro rfl
    simp [loadKeyFromStore, hex]
  · rintro r rfl hd
    simp [loadKeyFromStore, hex, hd]
  · rintro r d rfl hd hb
    simp [loadKeyFromStore, hex, hd, hb]
  · rintro r p0 s0 i0 b0 rfl henc hne
    have hd : aesDecrypt (scryptSync password r.salt) r.iv r.encryptedKey
        = none := by
      rw [henc]
      simp only [aesDecrypt, aesEncrypt, scryptSync]
      rw [if_neg]
      rintro ⟨hk, -⟩
      exact hne (congrArg DerivedKey.password hk).symm
    simp [loadKeyFromStore, hex, hd]

/-- Witness for C3 at a concrete corrupted record. -/
theorem c3_witness : loadKeyFromStore natCodec c3Store "bad" "pw" = none :=
  (c3_load_failure_single_kind natCodec c3Store "bad" "pw"
    KeystoreFile.corrupt rfl).1 rfl

/-- C9: importing a name that already has a keystore record reports the
duplicate, leaves the whole store unchanged, and so any load that
succeeded before the failed import still succeeds with the same key
pair afterwards. -/
theorem c9_duplicate_import_preserves_store (C : KeyCodec Priv Pub)
    (st : State) (n k p salt iv : String) (f : KeystoreFile)
    (hex : alistGet st.keystores n = some f) :
    (importKey C st n k p salt iv).1 = .duplicateName ∧
    (importKey C st n k p salt iv).2 = st ∧
    ∀ p0 kp, loadKeyFromStore C st n p0 = some kp →
      loadKeyFromStore C (importKey C st n k p salt iv).2 n p0 = some kp := by
  have h : (alistGet st.keystores n).isSome := by simp [hex]
  unfold importKey
  simp only [h, if_true]
  exact ⟨trivial, trivial, fun p0 kp hload => hload⟩

/-- Witness for C9: re-importing alice over the concrete store. -/
theorem c9_witness :
    (importKey natCodec c9Store "alice" "OTHER" "pw2" "s2" "i2").1
        = ImportResult.duplicateName ∧
    (importKey natCodec c9Store "alice" "OTHER" "pw2" "s2" "i2").2 = c9Store ∧
    ∀ p0 kp, loadKeyFromStore natCodec c9Store "alice" p0 = some kp →
      loadKeyFromStore natCodec
        (importKey natCodec c9Store "alice" "OTHER" "pw2" "s2" "i2").2
        "alice" p0 = some kp :=
  c9_duplicate_import_preserves_store natCodec c9Store "alice" "OTHER" "pw2"
    "s2" "i2"
    (KeystoreFile.valid
      { name := "alice",
        encryptedKey := aesEncrypt (scryptSync "pw" "s1") "i1" "EKDemoKey",
        salt := "s1", iv := "i1",
        publicKey := natCodec.pubToBase58 (natCodec.toPublicKey 7),
        version := 1 }) rfl

/-- C2: after any sequence of Keystore Store and Session Manager
operations from a fresh installation, every keystore file on disk holds
the private key only as a ciphertext of the modelled password-derived
cipher, and the session metadata file is either absent or holds exactly
the three-field record whose accountName and unlockTime come from the
unlock call and whose publicKey is a derived public key — never the
password and never the private key.  Every prefix of a sequence is
itself a sequence, so the invariant holds at every intermediate
state. -/
theorem c2_no_plaintext_on_disk {Priv Pub : Type} (C : KeyCodec Priv Pub)
    (ops : List Op) : diskNoPlaintext C (runOps C initState ops) :=
  runOps_preserves C ops initState (initState_disk C)

/-- Witness for C2 on a concrete import-then-unlock sequence. -/
theorem c2_witness :
    diskNoPlaintext natCodec (runOps natCodec initState
      [Op.opImport "alice" "EKDemoKey" "pw" "s1" "i1",
       Op.opUnlock "alice" "pw" 5]) :=
  c2_no_plaintext_on_disk natCodec
    [Op.opImport "alice" "EKDemoKey" "pw" "s1" "i1",
     Op.opUnlock "alice" "pw" 5]

/-- C4 counterexample: at the exact timeout boundary (elapsed time equal
to the configured timeout) isAccountUnlocked returns true, while the
claimed strict inequality says the session is no longer unlocked, so the
claimed equivalence fails. -/
theorem c4_counterexample :
    ¬ (((isAccountUnlocked c4State 1000).1 = true) ↔
        ∃ m, getSessionMetadata c4State = some m ∧
          1000 - m.unlockTime < c4State.sessionTimeout) := by
  intro h
  have h1 : (isAccountUnlocked c4State 1000).1 = true := by decide
  obtain ⟨m, hm, hlt⟩ := h.mp h1
  have hm2 : m = ⟨"alice", 0, "B62-8"⟩ := by
    have hg : getSessionMetadata c4State = some ⟨"alice", 0, "B62-8"⟩ := rfl
    rw [hg] at hm
    exact (Option.some_inj.mp hm).symm
  rw [hm2] at hlt
  revert hlt
  decide

/-- C4 amended: isAccountUnlocked returns true iff the session metadata
is readable and now - unlockTime is at most (not strictly below) the
configured timeout; and whenever the check finds a readable session past
the timeout it eagerly locks, deleting the metadata file and the vault
entry for the session account, and reports the session as not
unlocked. -/
theorem c4_amended (st : State) (now : Int) :
    ((isAccountUnlocked st now).1 = true ↔
      ∃ m, getSessionMetadata st = some m ∧
        now - m.unlockTime ≤ st.sessionTimeout) ∧
    (∀ m, getSessionMetadata st = some m →
      now - m.unlockTime > st.sessionTimeout →
      (isAccountUnlocked st now).1 = false ∧
      (isAccountUnlocked st now).2.sessionFile = SessionFile.absent ∧
      alistGet (isAccountUnlocked st now).2.vault m.accountName = none) := by
  constructor
  · exact isSessionValid_true_iff st now
  · intro m hm hexp
    unfold isAccountUnlocked isSessionValid
    simp only [hm, hexp, if_true]
    rw [lockAccount_of_meta st m hm]
    refine ⟨?_, ?_, ?_⟩
    · simp
    · simp
    · simp [alistGet_delete]

/-- Witness for C4 amended at a concrete state. -/
theorem c4_witness :
    (((isAccountUnlocked c4State 1000).1 = true ↔
      ∃ m, getSessionMetadata c4State = some m ∧
        1000 - m.unlockTime ≤ c4State.sessionTimeout) ∧
    (∀ m, getSessionMetadata c4State = some m →
      1000 - m.unlockTime > c4State.sessionTimeout →
      (isAccountUnlocked c4State 1000).1 = false ∧
      (isAccountUnlocked c4State 1000).2.sessionFile = SessionFile.absent ∧
      alistGet (isAccountUnlocked c4State 1000).2.vault m.accountName
        = none)) :=
  c4_amended c4State 1000

/-- C5: evaluating lockAccount at the failing input.  On a state with no
session metadata file it reports the error and terminates the process
with exit status 1, and likewise the second of two back-to-back calls on
an unlocked state terminates the process, contrary to the specified
idempotent, never-fatal lock. -/
theorem c5_lock_without_session_exits :
    lockAccount initState = (LockResult.exited 1, initState) ∧
    (lockAccount c5State).1 = LockResult.ok ∧
    (lockAccount c5State).2.sessionFile = SessionFile.absent ∧
    (lockAccount (lockAccount c5State).2).1 = LockResult.exited 1 := by
  decide

/-- C6 counterexample: a session already expired under the in-effect
30-minute timeout (the check at 40 minutes reports it locked) is
reported unlocked again after setSessionTimeout raises the timeout to 60
minutes, because validity is always recomputed against the currently
configured timeout. -/
theorem c6_counterexample :
    (isAccountUnlocked c6State 2400000).1 = false ∧
    (isAccountUnlocked (setSessionTimeout c6State 60) 2400000).1 = true := by
  decide

/-- C6 amended: setSessionTimeout(minutes) sets the timeout to
minutes * 60 * 1000 ms and, when session metadata is readable, rewrites
it unchanged (same unlockTime); afterwards the session is reported
unlocked exactly when now - unlockTime is at most the new timeout — so a
session that was expired under the previous timeout does become valid
again under a larger one, as long as its metadata file had not already
been deleted by an expiry check. -/
theorem c6_amended (st : State) (minutes : Int) (m : SessionMetadata)
    (hm : getSessionMetadata st = some m) :
    (setSessionTimeout st minutes).sessionTimeout = minutes * 60 * 1000 ∧
    (setSessionTimeout st minutes).sessionFile = SessionFile.meta m ∧
    ∀ now : Int,
      ((isAccountUnlocked (setSessionTimeout st minutes) now).1 = true ↔
        now - m.unlockTime ≤ minutes * 60 * 1000) := by
  have hss : st.sessionFile = .meta m := (getSessionMetadata_eq_some st m).mp hm
  have hset : setSessionTimeout st minutes =
      { st with sessionTimeout := minutes * 60 * 1000,
                sessionFile := SessionFile.meta m } := by
    unfold setSessionTimeout
    simp [getSessionMetadata, hss, saveSessionMetadata]
  rw [hset]
  refine ⟨rfl, rfl, fun now => ?_⟩
  unfold isAccountUnlocked
  rw [isSessionValid_true_iff]
  have hg : getSessionMetadata
      { st with sessionTimeout := minutes * 60 * 1000,
                sessionFile := SessionFile.meta m } = some m := rfl
  simp [hg]

/-- Witness for C6 amended at a concrete state. -/
theorem c6_witness :
    ((setSessionTimeout c6State 60).sessionTimeout = 60 * 60 * 1000 ∧
    (setSessionTimeout c6State 60).sessionFile
      = SessionFile.meta ⟨"alice", 0, "B62-8"⟩ ∧
    ∀ now : Int,
      ((isAccountUnlocked (setSessionTimeout c6State 60) now).1 = true ↔
        now - (0 : Int) ≤ 60 * 60 * 1000)) :=
  c6_amended c6State 60 ⟨"alice", 0, "B62-8"⟩ rfl

/-- C7: when no valid session exists, getAccountForCommand with
requireAccount = false returns the null "no account" result without
error, and with requireAccount = true terminates the process with exit
status 1; but the account status command, whose handler calls
getAccountForCommand() under the source default requireAccount = true,
therefore also terminates with exit status 1 — its "No active account"
branch is unreachable — contradicting the specified non-error exit for
status with no session. -/
theorem c7_no_session_outcomes {Priv Pub : Type} (C : KeyCodec Priv Pub)
    (st : State) (now : Int)
    (h : (isSessionValid st now).1 = false) :
    (getAccountForCommand C st now false).1 = CmdResult.noAccount ∧
    (getAccountForCommand C st now true).1 = CmdResult.exited 1 ∧
    (statusCommand C st now).1 = StatusResult.exited 1 := by
  have h1 : getAccountForCommand C st now false
      = (.noAccount, (isSessionValid st now).2) := by
    unfold getAccountForCommand
    simp [h]
  have h2 : getAccountForCommand C st now true
      = (.exited 1, (isSessionValid st now).2) := by
    unfold getAccountForCommand
    simp [h]
  refine ⟨by rw [h1], by rw [h2], ?_⟩
  unfold statusCommand
  rw [h2]

/-- Witness for C7 on the fresh empty state. -/
theorem c7_witness :
    (getAccountForCommand natCodec initState 0 false).1
      = CmdResult.noAccount ∧
    (getAccountForCommand natCodec initState 0 true).1
      = CmdResult.exited 1 ∧
    (statusCommand natCodec initState 0).1 = StatusResult.exited 1 :=
  c7_no_session_outcomes natCodec initState 0 rfl

/-- C8: removing the currently active account locks the session first,
leaving no session metadata file and no vault entry for the name, and
does not touch the keystore directory (record deletion is the caller's
job). -/
theorem c8_remove_active_account (st : State) (n : String)
    (m : SessionMetadata)
    (hm : getSessionMetadata st = some m) (hname : m.accountName = n) :
    (removeAccount st n).sessionFile = SessionFile.absent ∧
    alistGet (removeAccount st n).vault n = none ∧
    (removeAccount st n).keystores = st.keystores := by
  have hact : getActiveAccountName st = some n := by
    unfold getActiveAccountName
    rw [hm]
    simp [hname]
  unfold removeAccount
  rw [hact]
  simp only [if_pos rfl]
  rw [lockAccount_of_meta st m hm]
  refine ⟨rfl, ?_, rfl⟩
  simp [alistGet_delete]

/-- Witness for C8 at a concrete unlocked state. -/
theorem c8_witness :
    (removeAccount c8State "alice").sessionFile = SessionFile.absent ∧
    alistGet (removeAccount c8State "alice").vault "alice" = none ∧
    (removeAccount c8State "alice").keystores = c8State.keystores :=
  c8_remove_active_account c8State "alice" ⟨"alice", 0, "B62-8"⟩ rfl rfl

/-- C10: when the vault holds the empty string as the cached password for
the active session, getAccountForCommand takes the same branch as a
missing vault entry (the source tests the password with a JavaScript
falsiness check): it locks the session — deleting the metadata file and
the vault entry — and reports no active session (process exit 1 when the
account is required), even though the session is unexpired and the empty
password would load the key pair. -/
theorem c10_empty_password_auto_locks {Priv Pub : Type}
    (C : KeyCodec Priv Pub) (st : State) (now : Int) (m : SessionMetadata)
    (req : Bool) (kp : Priv × Pub)
    (hval : (isSessionValid st now).1 = true)
    (hm : getSessionMetadata st = some m)
    (hpw : alistGet st.vault m.accountName = some "")
    (_hload : loadKeyFromStore C st m.accountName "" = some kp) :
    (getAccountForCommand C st now req).1
        = (if req then CmdResult.exited 1 else CmdResult.noAccount) ∧
    (getAccountForCommand C st now req).2.sessionFile = SessionFile.absent ∧
    alistGet (getAccountForCommand C st now req).2.vault m.accountName
        = none := by
  have hst : (isSessionValid st now).2 = st :=
    isSessionValid_true_state st now hval
  have hlock := lockAccount_of_meta st m hm
  unfold getAccountForCommand
  simp only [hval, if_true, hst, hm, hpw]
  rw [hlock]
  cases req <;> simp [alistGet_delete]

/-- Witness for C10 at the concrete empty-password state. -/
theorem c10_witness :
    (getAccountForCommand natCodec c10State 10 true).1
        = (if true then CmdResult.exited 1 else CmdResult.noAccount) ∧
    (getAccountForCommand natCodec c10State 10 true).2.sessionFile
        = SessionFile.absent ∧
    alistGet (getAccountForCommand natCodec c10State 10 true).2.vault
        (SessionMetadata.mk "alice" 5 "B62-8").accountName = none :=
  c10_empty_password_auto_locks natCodec c10State 10 ⟨"alice", 5, "B62-8"⟩
    true (7, 8) (by decide) (by decide) (by decide) (by decide)

end Claims

end ZkusdCli
